import Mathlib

/-!
Verification of `src/include/autoencoder_lr_interpolation.py` (GDL4DesignApps).

The script loads a trained point-cloud autoencoder, encodes a batch of
shapes, linearly interpolates between consecutive latent codes, and renders
one PNG frame per (shape, step) pair with a linearly swept camera azimuth.
All floating-point arithmetic of the script is embedded over `ℚ`: every
operation involved (linear blends, affine normalization, the azimuth ramp)
is exact at the points the claims speak about, so rational arithmetic is a
faithful model of the values the script computes.
-/

namespace AELRInterp

/-! ## Latent and color interpolation (source lines 362-372)

`shp_interp` embeds
`latent_rep_total[i]*(1-np.float(j)/(n_steps_interp-1))
 + latent_rep_total[i+1]*(np.float(j)/(n_steps_interp-1))`
elementwise over two latent vectors `A` and `B` of equal length, with
`S = n_steps_interp` and step index `j`. -/

def shp_interp (A B : List ℚ) (S j : ℕ) : List ℚ :=
  List.zipWith
    (fun a b => a * (1 - (j : ℚ) / ((S : ℚ) - 1)) + b * ((j : ℚ) / ((S : ℚ) - 1)))
    A B

/-- `col_interp` embeds
`0.5*(color_shape[i,:]*(1-np.float(j)/(n_steps_interp-1))
      + color_shape[i+1,:]*(np.float(j)/(n_steps_interp-1)))`:
the same blend as `shp_interp`, scaled by `1/2`. -/
def col_interp (C1 C2 : List ℚ) (S j : ℕ) : List ℚ :=
  (shp_interp C1 C2 S j).map (fun c => (1/2 : ℚ) * c)

/-- Helper: zipping two equal-length lists with the left projection returns
the left list. -/
theorem zipWith_proj_left {α β : Type} (A : List α) (B : List β)
    (h : A.length = B.length) :
    List.zipWith (fun a _ => a) A B = A := by
  induction A generalizing B with
  | nil => simp
  | cons a as ih =>
    cases B with
    | nil => simp at h
    | cons b bs =>
      simp only [List.zipWith, List.cons.injEq, true_and]
      exact ih bs (by simpa using h)

/-- Helper: zipping two equal-length lists with the right projection returns
the right list. -/
theorem zipWith_proj_right {α β : Type} (A : List α) (B : List β)
    (h : A.length = B.length) :
    List.zipWith (fun _ b => b) A B = B := by
  induction A generalizing B with
  | nil => cases B with
    | nil => rfl
    | cons b bs => simp at h
  | cons a as ih =>
    cases B with
    | nil => simp at h
    | cons b bs =>
      simp only [List.zipWith, List.cons.injEq, true_and]
      exact ih bs (by simpa using h)

/-- Helper: for `2 ≤ S`, the denominator `(S : ℚ) - 1` is nonzero. -/
theorem denom_ne_zero {S : ℕ} (hS : 2 ≤ S) : ((S : ℚ) - 1) ≠ 0 := by
  have h2 : (2 : ℚ) ≤ (S : ℚ) := by exact_mod_cast hS
  intro h
  have : (S : ℚ) = 1 := by linarith
  linarith

/-- Helper: the blend at step `j = 0` returns the first vector. -/
theorem shp_interp_step_zero (A B : List ℚ) (S : ℕ)
    (hlen : A.length = B.length) : shp_interp A B S 0 = A := by
  unfold shp_interp
  simp only [Nat.cast_zero, zero_div, mul_zero, add_zero, sub_zero, mul_one]
  exact zipWith_proj_left A B hlen

/-- Helper: for `S ≥ 2` the blend at step `j = S - 1` returns the second
vector. -/
theorem shp_interp_step_last (A B : List ℚ) (S : ℕ) (hS : 2 ≤ S)
    (hlen : A.length = B.length) : shp_interp A B S (S - 1) = B := by
  have hden := denom_ne_zero hS
  unfold shp_interp
  have hcast : (((S - 1 : ℕ)) : ℚ) = (S : ℚ) - 1 := by
    have h1 : 1 ≤ S := le_trans one_le_two hS
    push_cast [Nat.cast_sub h1]
    ring
  rw [hcast, div_self hden]
  simp only [sub_self, mul_zero, zero_add, mul_one]
  exact zipWith_proj_right A B hlen

/-- C1: for equal-length latent vectors `A`, `B` and step count `S ≥ 2`,
the interpolated vector `A*(1 - j/(S-1)) + B*(j/(S-1))` equals `A` exactly
at step `j = 0` and equals `B` exactly at step `j = S-1`. -/
theorem shp_interp_endpoints (A B : List ℚ) (S : ℕ) (hS : 2 ≤ S)
    (hlen : A.length = B.length) :
    shp_interp A B S 0 = A ∧ shp_interp A B S (S - 1) = B :=
  ⟨shp_interp_step_zero A B S hlen, shp_interp_step_last A B S hS hlen⟩

/-- Concrete instantiation of `shp_interp_endpoints` at
`A = [1, 2]`, `B = [3, 4]`, `S = 5`. -/
theorem shp_interp_endpoints_witness :
    (2 ≤ 5 ∧ ([(1 : ℚ), 2] : List ℚ).length = ([(3 : ℚ), 4] : List ℚ).length) ∧
      (shp_interp [(1 : ℚ), 2] [(3 : ℚ), 4] 5 0 = [(1 : ℚ), 2] ∧
        shp_interp [(1 : ℚ), 2] [(3 : ℚ), 4] 5 (5 - 1) = [(3 : ℚ), 4]) :=
  ⟨⟨by norm_num, by decide⟩,
    shp_interp_endpoints [(1 : ℚ), 2] [(3 : ℚ), 4] 5 (by norm_num) (by decide)⟩

/-- C4: for 3-component color labels `C1`, `C2` and step count `S ≥ 2`,
the blended color `0.5*(C1*(1 - j/(S-1)) + C2*(j/(S-1)))` equals half of
`C1` at step `j = 0` and half of `C2` at step `j = S-1`. -/
theorem col_interp_endpoints (C1 C2 : List ℚ) (S : ℕ) (hS : 2 ≤ S)
    (hlen : C1.length = C2.length) :
    col_interp C1 C2 S 0 = C1.map (fun c => (1/2 : ℚ) * c) ∧
      col_interp C1 C2 S (S - 1) = C2.map (fun c => (1/2 : ℚ) * c) := by
  unfold col_interp
  rw [shp_interp_step_zero C1 C2 S hlen, shp_interp_step_last C1 C2 S hS hlen]
  exact ⟨rfl, rfl⟩

/-- Concrete instantiation of `col_interp_endpoints` at
`C1 = [0, 0, 1]`, `C2 = [1, 0, 0]`, `S = 5`. -/
theorem col_interp_endpoints_witness :
    (2 ≤ 5 ∧ ([(0 : ℚ), 0, 1] : List ℚ).length = ([(1 : ℚ), 0, 0] : List ℚ).length) ∧
      (col_interp [(0 : ℚ), 0, 1] [(1 : ℚ), 0, 0] 5 0
          = ([(0 : ℚ), 0, 1] : List ℚ).map (fun c => (1/2 : ℚ) * c) ∧
        col_interp [(0 : ℚ), 0, 1] [(1 : ℚ), 0, 0] 5 (5 - 1)
          = ([(1 : ℚ), 0, 0] : List ℚ).map (fun c => (1/2 : ℚ) * c)) :=
  ⟨⟨by norm_num, by decide⟩,
    col_interp_endpoints [(0 : ℚ), 0, 1] [(1 : ℚ), 0, 0] 5 (by norm_num) (by decide)⟩

/-! ## Camera azimuth (source lines 356-397)

The script sets `ar_range = 180`, keeps a global frame counter `cntr`
running over `0, 1, ..., n_shapes*n_steps_interp - 1` (incremented once per
rendered frame), and computes
`az = (90 - ar_range/2) + (cntr/(n_shapes*n_steps_interp))*ar_range`. -/

def ar_range : ℚ := 180

def az (n_shapes n_steps_interp cntr : ℕ) : ℚ :=
  (90 - ar_range / 2)
    + ((cntr : ℚ) / ((n_shapes : ℚ) * (n_steps_interp : ℚ))) * ar_range

/-- C2 counterexample: with the script's actual shape count
(`n_shapes = 10`, `n_steps_interp = 5`, so 50 frames), the azimuth of the
final frame (`cntr = 49`) is `176.4`, not `90 + ar_range/2 = 180`. -/
theorem az_final_frame_ne_upper_bound :
    az 10 5 49 ≠ 90 + ar_range / 2 := by
  unfold az ar_range
  norm_num

/-- C2 amended: the azimuth sweeps linearly with the global frame counter,
starting exactly at `90 - ar_range/2`; over the frame range
`0 ≤ cntr < n_shapes*n_steps_interp` it spans exactly the closed interval
`[90 - ar_range/2, 90 + ar_range/2 - ar_range/(n_shapes*n_steps_interp)]`,
and the final frame attains that upper bound, which falls short of
`90 + ar_range/2` by one ramp increment `ar_range/(n_shapes*n_steps_interp)`. -/
theorem az_amended_span (ns S k : ℕ) (hpos : 0 < ns * S) (hk : k < ns * S) :
    az ns S 0 = 90 - ar_range / 2 ∧
      90 - ar_range / 2 ≤ az ns S k ∧
      az ns S k ≤ 90 + ar_range / 2 - ar_range / ((ns * S : ℕ) : ℚ) ∧
      az ns S (ns * S - 1)
        = 90 + ar_range / 2 - ar_range / ((ns * S : ℕ) : ℚ) := by
  have hN : (0 : ℚ) < ((ns * S : ℕ) : ℚ) := by exact_mod_cast hpos
  have hNne : ((ns * S : ℕ) : ℚ) ≠ 0 := ne_of_gt hN
  have hprod : (ns : ℚ) * (S : ℚ) = ((ns * S : ℕ) : ℚ) := by push_cast; ring
  have hns : 0 < ns := by
    rcases Nat.eq_zero_or_pos ns with h | h
    · subst h; simp at hpos
    · exact h
  have hSpos : 0 < S := by
    rcases Nat.eq_zero_or_pos S with h | h
    · subst h; simp at hpos
    · exact h
  have hnsQ : (ns : ℚ) ≠ 0 := ne_of_gt (by exact_mod_cast hns)
  have hSQ : (S : ℚ) ≠ 0 := ne_of_gt (by exact_mod_cast hSpos)
  refine ⟨?_, ?_, ?_, ?_⟩
  · unfold az; simp
  · unfold az
    have h1 : (0 : ℚ) ≤ (k : ℚ) / ((ns : ℚ) * (S : ℚ)) := by
      rw [hprod]; positivity
    have h2 : (0 : ℚ) ≤ ar_range := by unfold ar_range; norm_num
    have := mul_nonneg h1 h2
    linarith
  · have hk1 : (k : ℚ) ≤ ((ns * S : ℕ) : ℚ) - 1 := by
      have : (k : ℚ) + 1 ≤ ((ns * S : ℕ) : ℚ) := by exact_mod_cast hk
      linarith
    have lhs_eq : az ns S k = 180 * (k : ℚ) / ((ns * S : ℕ) : ℚ) := by
      unfold az ar_range
      rw [hprod]
      ring
    have rhs_eq : 90 + ar_range / 2 - ar_range / ((ns * S : ℕ) : ℚ)
        = (180 * ((ns * S : ℕ) : ℚ) - 180) / ((ns * S : ℕ) : ℚ) := by
      unfold ar_range
      field_simp
      ring
    rw [lhs_eq, rhs_eq]
    gcongr
    linarith
  · have hcast : (((ns * S - 1 : ℕ)) : ℚ) = ((ns * S : ℕ) : ℚ) - 1 := by
      have h1 : 1 ≤ ns * S := hpos
      push_cast [Nat.cast_sub h1]
      ring
    unfold az ar_range
    rw [hprod, hcast]
    field_simp
    ring

/-- Concrete instantiation of `az_amended_span` at the script's actual
frame count: `ns = 10`, `S = 5`, final frame `k = 49`. -/
theorem az_amended_span_witness :
    (0 < 10 * 5 ∧ 49 < 10 * 5) ∧
      (az 10 5 0 = 90 - ar_range / 2 ∧
        90 - ar_range / 2 ≤ az 10 5 49 ∧
        az 10 5 49 ≤ 90 + ar_range / 2 - ar_range / ((10 * 5 : ℕ) : ℚ) ∧
        az 10 5 (10 * 5 - 1)
          = 90 + ar_range / 2 - ar_range / ((10 * 5 : ℕ) : ℚ)) :=
  ⟨⟨by norm_num, by norm_num⟩, az_amended_span 10 5 49 (by norm_num) (by norm_num)⟩

/-- C8: the azimuth sequence is monotonically non-decreasing in the global
frame counter. -/
theorem az_monotone (ns S k k2 : ℕ) (h : k ≤ k2) : az ns S k ≤ az ns S k2 := by
  unfold az ar_range
  have hN : (0 : ℚ) ≤ (ns : ℚ) * (S : ℚ) := by positivity
  have hkk : (k : ℚ) ≤ (k2 : ℚ) := by exact_mod_cast h
  rcases eq_or_lt_of_le hN with hz | hpos
  · rw [← hz]
    simp
  · have hdiv : (k : ℚ) / ((ns : ℚ) * (S : ℚ))
        ≤ (k2 : ℚ) / ((ns : ℚ) * (S : ℚ)) := by gcongr
    have := mul_le_mul_of_nonneg_right hdiv (by norm_num : (0 : ℚ) ≤ 180)
    linarith

/-- Concrete instantiation of `az_monotone` at `k = 3 ≤ k2 = 7`. -/
theorem az_monotone_witness : 3 ≤ 7 ∧ az 10 5 3 ≤ az 10 5 7 :=
  ⟨by norm_num, az_monotone 10 5 3 7 (by norm_num)⟩

/-! ## PNG frame sequencing (source lines 358-399)

The nested loop `for i in range(n_shapes): for j in range(n_steps_interp):`
writes exactly one PNG file per iteration (`plot3(pc_interpolated, pc_name,
...)` at line 399), where `n_shapes = vis_set.shape[0]` is the number of
selected shapes (training plus test; the wrap-around copy appended to
`latent_rep_total` is an interpolation *target* only, never a loop index). -/

def pngFrames (n_shapes n_steps_interp : ℕ) : List (ℕ × ℕ) :=
  (List.range n_shapes).flatMap fun i =>
    (List.range n_steps_interp).map fun j => (i, j)

/-- C3: with 2 training shapes, 2 test shapes and 5 interpolation steps,
the loop produces `(2+2)*5 = 20` PNG frames; this equals `(2+2+1)*5` minus
the 5 steps of the de-duplicated wrap-around segment (the segment that
would start at the appended copy of the first shape is never rendered). -/
theorem pngFrames_count_2_2_5 :
    (pngFrames (2 + 2) 5).length = 20 ∧ (2 + 2 + 1) * 5 - 5 = 20 := by
  constructor
  · decide
  · norm_num

/-! ## Point-cloud normalization (source lines 306-315)

The script reads `normvalues.csv`, takes `maX = normDS[0]`,
`miX = normDS[1]`, and calls
`data_set_norm(vis_set, np.array([0.1, 0.9]), inp_lim=np.array([miX, maX]))`. -/

/-- Modelled from the spec: `data_set_norm` is imported from
`preproc_scripts`, which is not part of src/. Per the spec ("normalized
into a fixed numeric range using dataset-wide min/max statistics", mapping
"the dataset's recorded minimum/maximum to the configured target interval
bounds"), it affinely rescales each coordinate from the input interval
`[inpMin, inpMax]` onto the output interval `[outMin, outMax]`. -/
def data_set_norm (x outMin outMax inpMin inpMax : ℚ) : ℚ :=
  outMin + (x - inpMin) * (outMax - outMin) / (inpMax - inpMin)

/-- C6: with output interval `[0.1, 0.9]` and the recorded dataset
minimum `miX` and maximum `maX` (`miX ≠ maX`), a coordinate equal to `miX`
maps exactly to `0.1` and a coordinate equal to `maX` maps exactly to
`0.9`. -/
theorem data_set_norm_bounds (miX maX : ℚ) (h : miX ≠ maX) :
    data_set_norm miX (1/10) (9/10) miX maX = 1/10 ∧
      data_set_norm maX (1/10) (9/10) miX maX = 9/10 := by
  have hne : maX - miX ≠ 0 := sub_ne_zero.mpr (Ne.symm h)
  constructor
  · unfold data_set_norm
    rw [sub_self, zero_mul, zero_div, add_zero]
  · unfold data_set_norm
    field_simp
    ring

/-- Concrete instantiation of `data_set_norm_bounds` at `miX = 0`,
`maX = 1`. -/
theorem data_set_norm_bounds_witness :
    ((0 : ℚ) ≠ 1) ∧
      (data_set_norm 0 (1/10) (9/10) 0 1 = 1/10 ∧
        data_set_norm 1 (1/10) (9/10) 0 1 = 9/10) :=
  ⟨by norm_num, data_set_norm_bounds 0 1 (by norm_num)⟩

/-! ## VAE flag parsing (source lines 104-110)

```
if args.VAE == None:      flagVAE = False
elif args.VAE.lower() == "true": flagVAE = True
else:                     flagVAE = False
```
An absent `--VAE` argument is `None`, i.e. `Option.none`. -/

def flagVAE (vae : Option String) : Bool :=
  match vae with
  | none => false
  | some s => if s.toLower = "true" then true else false

/-- C9: `flagVAE` is `true` exactly when the `--VAE` argument is supplied
and its value compares equal to `"true"` case-insensitively (i.e. its
lowercasing is `"true"`); for every other value, including an absent
argument, it is `false`; the computation is total, so no error is raised. -/
theorem flagVAE_spec (vae : Option String) :
    flagVAE vae = true ↔ ∃ s, vae = some s ∧ s.toLower = "true" := by
  cases vae with
  | none => simp [flagVAE]
  | some s =>
    simp only [flagVAE, Option.some.injEq]
    by_cases h : s.toLower = "true"
    · simp [h]
    · simp [h]

/-! ## Preprocessing effect trace (source lines 222-325)

The script computes `top_dir = "Network_" + name_exp`, checks
`osp.exists(top_dir)` and, when the directory is missing, prints
`"Directory {top_dir} does not exist!"` and calls `exit()` before any file
is read or written.  On the happy path it copies and removes
`log_dictionary.py`, reads the two geometry lists, reads each selected
geometry file, reads `normvalues.csv`, writes
`geometries_reconstruction.csv`, creates the output directory and then
writes the PNG frames. -/

inductive Effect where
  | printMsg : String → Effect
  | exitProg : Effect
  | runCmd : String → Effect
  | readCSV : String → Effect
  | writeCSV : String → Effect
  | writePNG : String → Effect
deriving DecidableEq

def top_dir (name_exp : String) : String := "Network_" ++ name_exp

def happyTrace (ne : String) (geomPaths : List String)
    (frames : List (ℕ × ℕ)) : List Effect :=
  [Effect.runCmd ("cp " ++ top_dir ne ++ "/log_dictionary.py ."),
   Effect.runCmd "rm log_dictionary.py",
   Effect.readCSV (top_dir ne ++ "/geometries_training.csv"),
   Effect.readCSV (top_dir ne ++ "/geometries_testing.csv")]
  ++ geomPaths.map Effect.readCSV
  ++ [Effect.readCSV (top_dir ne ++ "/normvalues.csv"),
      Effect.writeCSV (top_dir ne ++ "/geometries_reconstruction.csv"),
      Effect.runCmd ("mkdir " ++ top_dir ne ++ "/point_cloud_interpolation")]
  ++ frames.map (fun p =>
      Effect.writePNG (top_dir ne ++ "/point_cloud_interpolation/PC_"
        ++ toString p.1 ++ "_" ++ toString p.2 ++ ".png"))

def scriptTrace (ne : String) (dirExists : Bool) (geomPaths : List String)
    (frames : List (ℕ × ℕ)) : List Effect :=
  if dirExists then happyTrace ne geomPaths frames
  else
    [Effect.printMsg ("Directory " ++ top_dir ne ++ " does not exist!"),
     Effect.exitProg]

/-- C7: when the experiment's network directory does not exist, the trace
is exactly a diagnostic message naming the directory followed by program
exit: no file is read or written, no command is run, and the final event
is termination (no retry). -/
theorem missing_dir_terminates (ne : String) (geomPaths : List String)
    (frames : List (ℕ × ℕ)) :
    scriptTrace ne false geomPaths frames
        = [Effect.printMsg ("Directory " ++ top_dir ne ++ " does not exist!"),
           Effect.exitProg] ∧
      (∀ p : String,
        Effect.readCSV p ∉ scriptTrace ne false geomPaths frames ∧
        Effect.writeCSV p ∉ scriptTrace ne false geomPaths frames ∧
        Effect.writePNG p ∉ scriptTrace ne false geomPaths frames ∧
        Effect.runCmd p ∉ scriptTrace ne false geomPaths frames) ∧
      (scriptTrace ne false geomPaths frames).getLast? = some Effect.exitProg := by
  refine ⟨rfl, fun p => ?_, rfl⟩
  simp [scriptTrace]

/-! ## Random number generation, shape selection and point resampling
(source lines 115-120, 256-303)

The script seeds both generators with the fixed value 0
(`np.random.seed(seed=0)`, `random.seed(0)`) before any draw.  The
library generator is embedded as a deterministic state machine: `npSeed`
resets the state as a function of the seed alone (discarding whatever
entropy the state held before), and each draw advances the state by a
fixed congruential step.  `np.random.choice(pool, k)` draws `k` indices
with replacement; with `replace=False` it draws `k` distinct elements and
fails when the pool is smaller than `k`. -/

structure RNGState where
  state : ℕ
deriving DecidableEq

def npSeed (seed : ℕ) (_r : RNGState) : RNGState :=
  ⟨(seed * 2654435761 + 1) % 4294967296⟩

def rngNext (r : RNGState) : ℕ × RNGState :=
  ((r.state * 1103515245 + 12345) % 2147483648,
   ⟨(r.state * 1103515245 + 12345) % 2147483648⟩)

def npChoiceRepl : RNGState → ℕ → ℕ → List ℕ × RNGState
  | r, _, 0 => ([], r)
  | r, n, k + 1 =>
    ((rngNext r).1 % n :: (npChoiceRepl (rngNext r).2 n k).1,
     (npChoiceRepl (rngNext r).2 n k).2)

def npChoiceNoRepl : RNGState → List ℕ → ℕ → Option (List ℕ) × RNGState
  | r, _, 0 => (some [], r)
  | r, pool, k + 1 =>
    if pool.length = 0 then (none, r)
    else
      (((npChoiceNoRepl (rngNext r).2
            (pool.eraseIdx ((rngNext r).1 % pool.length)) k).1).map
          (fun l => pool.getD ((rngNext r).1 % pool.length) 0 :: l),
       (npChoiceNoRepl (rngNext r).2
          (pool.eraseIdx ((rngNext r).1 % pool.length)) k).2)

/-- Helper: drawing with replacement returns exactly `k` indices. -/
theorem npChoiceRepl_length (r : RNGState) (n k : ℕ) :
    (npChoiceRepl r n k).1.length = k := by
  induction k generalizing r with
  | zero => rfl
  | succ k ih => simp [npChoiceRepl, ih]

/-- Helper: drawing `k ≤ pool.length` elements without replacement
succeeds and returns exactly `k` elements. -/
theorem npChoiceNoRepl_length (k : ℕ) (r : RNGState) (pool : List ℕ)
    (h : k ≤ pool.length) :
    ∃ l, (npChoiceNoRepl r pool k).1 = some l ∧ l.length = k := by
  induction k generalizing r pool with
  | zero => exact ⟨[], rfl, rfl⟩
  | succ k ih =>
    have hpool : pool.length ≠ 0 := by omega
    have hidx : (rngNext r).1 % pool.length < pool.length :=
      Nat.mod_lt _ (Nat.pos_of_ne_zero hpool)
    have herase :
        (pool.eraseIdx ((rngNext r).1 % pool.length)).length
          = pool.length - 1 := by
      rw [List.length_eraseIdx]
      simp [hidx]
    obtain ⟨l, hl, hlen⟩ :=
      ih (rngNext r).2 (pool.eraseIdx ((rngNext r).1 % pool.length)) (by omega)
    refine ⟨pool.getD ((rngNext r).1 % pool.length) 0 :: l, ?_, by simp [hlen]⟩
    simp only [npChoiceNoRepl, hpool, if_neg, ite_false]
    simp [hl]

/-- `pc_sample` embeds the resampling branch of the loading loops
(both the training loop, lines 280-285, and the test loop, lines 294-299):
`if pc_load.shape[0] < pc_size:` draw `pc_size` indices with replacement
(the numpy default), `else:` draw `pc_size` indices with
`replace=False`. -/
def pc_sample (r : RNGState) (n_load pc_size : ℕ) :
    Option (List ℕ) × RNGState :=
  if n_load < pc_size then
    (some (npChoiceRepl r n_load pc_size).1, (npChoiceRepl r n_load pc_size).2)
  else
    npChoiceNoRepl r (List.range n_load) pc_size

/-- `visRow` embeds `vis_set[cntr,:,:] = pc_load[pc_sample,:]`: the row of
the visualization batch holds the loaded points at the sampled indices. -/
def visRow (pcLoad : List (ℚ × ℚ × ℚ)) (idxs : List ℕ) : List (ℚ × ℚ × ℚ) :=
  idxs.map fun i => pcLoad.getD i (0, 0, 0)

/-- C5: for a loaded point cloud with `n` points (`n > 0`), index
resampling uses replacement exactly when `n < pc_size` and no replacement
otherwise (including `n = pc_size`); under both branches sampling succeeds
and the resampled row stored in the visualization batch has exactly
`pc_size` points. -/
theorem pc_sample_spec (r : RNGState) (pcLoad : List (ℚ × ℚ × ℚ))
    (n pc_size : ℕ) (hlen : pcLoad.length = n) (hn : 0 < n) :
    (n < pc_size →
        pc_sample r n pc_size
          = (some (npChoiceRepl r n pc_size).1,
             (npChoiceRepl r n pc_size).2)) ∧
      (pc_size ≤ n →
        pc_sample r n pc_size
          = npChoiceNoRepl r (List.range n) pc_size) ∧
      ∃ idxs, (pc_sample r n pc_size).1 = some idxs ∧
        idxs.length = pc_size ∧ (visRow pcLoad idxs).length = pc_size := by
  refine ⟨fun h => by simp [pc_sample, h], fun h => by
    simp [pc_sample, Nat.not_lt.mpr h], ?_⟩
  rcases Nat.lt_or_ge n pc_size with h | h
  · refine ⟨(npChoiceRepl r n pc_size).1, by simp [pc_sample, h], ?_, ?_⟩
    · exact npChoiceRepl_length r n pc_size
    · simp [visRow, npChoiceRepl_length r n pc_size]
  · obtain ⟨l, hl, hlen2⟩ :=
      npChoiceNoRepl_length pc_size r (List.range n) (by simpa using h)
    refine ⟨l, ?_, hlen2, by simp [visRow, hlen2]⟩
    simpa [pc_sample, Nat.not_lt.mpr h] using hl

/-- Concrete instantiation of `pc_sample_spec`: a cloud of 2 points
resampled to 3 points (replacement branch). -/
theorem pc_sample_spec_witness :
    (([((1 : ℚ), (2 : ℚ), (3 : ℚ)), ((4 : ℚ), (5 : ℚ), (6 : ℚ))]
        : List (ℚ × ℚ × ℚ)).length = 2 ∧ 0 < 2) ∧
      ((2 < 3 →
          pc_sample ⟨0⟩ 2 3
            = (some (npChoiceRepl ⟨0⟩ 2 3).1, (npChoiceRepl ⟨0⟩ 2 3).2)) ∧
        (3 ≤ 2 →
          pc_sample ⟨0⟩ 2 3 = npChoiceNoRepl ⟨0⟩ (List.range 2) 3) ∧
        ∃ idxs, (pc_sample ⟨0⟩ 2 3).1 = some idxs ∧
          idxs.length = 3 ∧
          (visRow [((1 : ℚ), (2 : ℚ), (3 : ℚ)), ((4 : ℚ), (5 : ℚ), (6 : ℚ))]
              idxs).length = 3) :=
  ⟨⟨rfl, by norm_num⟩,
    pc_sample_spec ⟨0⟩
      [((1 : ℚ), (2 : ℚ), (3 : ℚ)), ((4 : ℚ), (5 : ℚ), (6 : ℚ))] 2 3 rfl
      (by norm_num)⟩

/-- `programSelections` embeds the randomized choices of the script in
source order: `np.random.seed(seed=0)` (line 119) overwriting whatever
entropy the generator state held, then `i_sel_training` and
`i_sel_testing` (`np.random.choice(range(n), 5, replace=False)`,
lines 259-264), then the per-shape point resampling of the loading loops
(`ptCounts` lists the loaded point count of each selected shape in loop
order). -/
def programSelections (entropy : ℕ) (nTr nTe : ℕ) (ptCounts : List ℕ)
    (pcSize : ℕ) :
    Option (List ℕ) × Option (List ℕ) × List (Option (List ℕ)) :=
  let r1 := npSeed 0 (RNGState.mk entropy)
  let selTr := npChoiceNoRepl r1 (List.range nTr) 5
  let selTe := npChoiceNoRepl selTr.2 (List.range nTe) 5
  let samples := ptCounts.foldl
    (fun (acc : List (Option (List ℕ)) × RNGState) n =>
      ((acc.1 ++ [(pc_sample acc.2 n pcSize).1]), (pc_sample acc.2 n pcSize).2))
    ([], selTe.2)
  (selTr.1, selTe.1, samples.1)

/-- C10: because the generator is re-seeded with the fixed value 0 before
any draw, the selected training indices, test indices and resampled point
indices do not depend on the entropy the generator state held beforehand:
two runs on identical inputs make identical selections. -/
theorem programSelections_deterministic (e1 e2 nTr nTe : ℕ)
    (ptCounts : List ℕ) (pcSize : ℕ) :
    programSelections e1 nTr nTe ptCounts pcSize
      = programSelections e2 nTr nTe ptCounts pcSize := by
  simp [programSelections, npSeed]

end AELRInterp
